import Mathlib

/-!
Verification of the time-value arithmetic and clock-acquisition model of a
POSIX clock library (`Timespec`, `Instant`, `SystemTime`, and the vDSO
fast-path of `clock_gettime`), shallowly embedded from the Rust sources
(`src/raw/mod.rs`, `src/raw/linux.rs`, `src/lib.rs`).

Machine integers are modelled as `Int`/`Nat` with explicit wrapping
(`% 2^w`) where the Rust code performs unchecked (release-mode, wrapping)
arithmetic or `as` casts.
-/

/-! ## Machine-integer helpers -/

/-- `NSEC_PER_SEC` constant from `src/raw/mod.rs`. -/
def NSEC_PER_SEC : Nat := 1000000000

/-- `I64_MAX` constant from `src/raw/mod.rs` (as a `Nat`, it is compared
against `u64` values there). -/
def I64_MAX : Nat := 9223372036854775807

/-- `x` is representable as a Rust `i64`. -/
abbrev i64InRange (x : Int) : Prop :=
  -9223372036854775808 ≤ x ∧ x ≤ 9223372036854775807

/-- Wrapping (release-mode) `i64` arithmetic result: reduce an exact integer
into the `i64` range, two's-complement style. -/
def wrap64 (x : Int) : Int :=
  (x + 9223372036854775808) % 18446744073709551616 - 9223372036854775808

/-- Rust `as u64` cast of an `i64` value (reinterpretation mod `2^64`). -/
def toU64 (x : Int) : Nat := (x % 18446744073709551616).toNat

/-- Wrapping (release-mode) `i32` arithmetic result. -/
def wrap32i (x : Int) : Int := (x + 2147483648) % 4294967296 - 2147483648

/-- Rust `as i32` cast of a `u32` value (reinterpretation mod `2^32`). -/
def u32AsI32 (x : Nat) : Int := wrap32i x

/-- Rust `as u32` cast of an `i32` value (reinterpretation mod `2^32`). -/
def toU32 (x : Int) : Nat := (x % 4294967296).toNat

/-- Wrapping (release-mode) `u32` addition. -/
def u32add (x y : Nat) : Nat := (x + y) % 4294967296

/-- Wrapping (release-mode) `u32` subtraction (for `x y < 2^32`). -/
def u32sub (x y : Nat) : Nat := (x + 4294967296 - y) % 4294967296

/-! ## `Timespec` (src/raw/linux.rs) -/

/-- `Timespec` from `src/raw/linux.rs`: `tv_sec: i64`, `tv_nsec: u32`
(the padding field carries no information and is omitted). -/
structure Timespec where
  tv_sec : Int
  tv_nsec : Nat
deriving DecidableEq

/-- `Timespec::new` from `src/raw/linux.rs`: stores both fields verbatim. -/
def Timespec.new (secs : Int) (nsecs : Nat) : Timespec :=
  { tv_sec := secs, tv_nsec := nsecs }

/-- `Timespec::zero` from `src/raw/mod.rs`. -/
def Timespec.zero : Timespec := Timespec.new 0 0

/-- `Timespec::secs` accessor. -/
def Timespec.secs (t : Timespec) : Int := t.tv_sec

/-- `Timespec::nsecs` accessor. -/
def Timespec.nsecs (t : Timespec) : Nat := t.tv_nsec

/-- The fields are representable in the Rust types `i64`/`u32`. -/
abbrev Timespec.valid (t : Timespec) : Prop :=
  i64InRange t.tv_sec ∧ t.tv_nsec < 4294967296

/-- The §3 invariant: fields representable and `tv_nsec` normalized into
`[0, 1e9)`. -/
abbrev Timespec.normalized (t : Timespec) : Prop :=
  i64InRange t.tv_sec ∧ t.tv_nsec < 1000000000

/-- `self >= other` through the `Ord` impl of `src/raw/mod.rs`:
lexicographic on `(tv_sec, tv_nsec)`. -/
def Timespec.ge (a b : Timespec) : Bool :=
  if a.tv_sec = b.tv_sec then decide (b.tv_nsec ≤ a.tv_nsec)
  else decide (b.tv_sec < a.tv_sec)

/-! ## `Duration` (external `core::time::Duration`) -/

/-- Rust `core::time::Duration`: `secs: u64`, `nanos: u32 < 1e9`. -/
structure Duration where
  secs : Nat
  nanos : Nat
deriving DecidableEq

/-- The `Duration` fields satisfy Rust's representation invariant. -/
abbrev Duration.valid (d : Duration) : Prop :=
  d.secs < 18446744073709551616 ∧ d.nanos < 1000000000

/-- `Duration::new`: normalizes excess nanoseconds into seconds.  (Rust
panics when the carried seconds overflow `u64`; every call site below is
used under hypotheses that keep `secs + nanos / 1e9` within `u64`.) -/
def Duration.new (secs nanos : Nat) : Duration :=
  { secs := secs + nanos / 1000000000, nanos := nanos % 1000000000 }

/-- `Duration::as_secs`. -/
def Duration.as_secs (d : Duration) : Nat := d.secs

/-- `Duration::subsec_nanos`. -/
def Duration.subsec_nanos (d : Duration) : Nat := d.nanos

/-- `Duration::default()` (= the zero duration). -/
def Duration.default : Duration := { secs := 0, nanos := 0 }

/-- Total nanosecond value of a `Duration`. -/
def Duration.toNanos (d : Duration) : Int := (d.secs : Int) * 1000000000 + d.nanos

/-- Total nanosecond value of a `Timespec`. -/
def Timespec.toNanos (t : Timespec) : Int := t.tv_sec * 1000000000 + t.tv_nsec

/-! ## `Timespec` ordering facts -/

/-- The `Ord`-derived `>=` is total: if `a >= b` fails then `b >= a` holds. -/
theorem Timespec.ge_total (a b : Timespec) (h : Timespec.ge a b = false) :
    Timespec.ge b a = true := by
  unfold Timespec.ge at h ⊢
  by_cases h1 : a.tv_sec = b.tv_sec
  · simp [h1] at h ⊢
    omega
  · simp [h1, Ne.symm h1] at h ⊢
    omega

/-- Two `Timespec` values with equal fields are equal. -/
theorem Timespec.eq_of_fields {a b : Timespec} (hs : a.tv_sec = b.tv_sec)
    (hn : a.tv_nsec = b.tv_nsec) : a = b := by
  cases a; cases b; simp_all

/-- Mathematical statement of the lexicographic `a >= b` order from §3. -/
abbrev specGe (a b : Timespec) : Prop :=
  b.tv_sec < a.tv_sec ∨ (b.tv_sec = a.tv_sec ∧ b.tv_nsec ≤ a.tv_nsec)

/-- The Boolean `Timespec.ge` decides `specGe`. -/
theorem Timespec.ge_iff_spec (a b : Timespec) :
    Timespec.ge a b = true ↔ specGe a b := by
  unfold Timespec.ge
  by_cases h1 : a.tv_sec = b.tv_sec <;> simp [h1] <;> omega

/-! ## `Timespec::sub_timespec` (src/raw/mod.rs lines 48–82) -/

/-- `Timespec::sub_timespec`: directional subtraction.  The `a >= b` branch
computes the borrow-free or one-second-borrow difference (the `i64`
subtraction is wrapping, then cast `as u64`); the `a < b` branch recurses
with the arguments swapped and flips the tag. -/
def Timespec.sub_timespec (a b : Timespec) : Except Duration Duration :=
  if h : Timespec.ge a b then
    let p :=
      if b.tv_nsec ≤ a.tv_nsec then
        (toU64 (wrap64 (a.tv_sec - b.tv_sec)), u32sub a.tv_nsec b.tv_nsec)
      else
        (toU64 (wrap64 (a.tv_sec - b.tv_sec - 1)),
          u32sub (u32add a.tv_nsec NSEC_PER_SEC) b.tv_nsec)
    Except.ok (Duration.new p.1 p.2)
  else
    match Timespec.sub_timespec b a with
    | .ok d => .error d
    | .error d => .ok d
termination_by (if Timespec.ge a b then (0 : Nat) else 1)
decreasing_by
  simp only [Bool.not_eq_true] at h
  simp [h, Timespec.ge_total a b h]

/-- Magnitude carried by either branch of a directional subtraction. -/
def subMagnitude : Except Duration Duration → Duration
  | .ok d => d
  | .error d => d

/-- Whether a directional subtraction took the non-negative branch. -/
def subIsOk : Except Duration Duration → Bool
  | .ok _ => true
  | .error _ => false

/-- Modelled from the spec's §4.2 words: the directional difference for
`a >= b` — borrow-free when `a.subsecondNanos >= b.subsecondNanos`, else a
one-second borrow. -/
def specDirSub (a b : Timespec) : Duration :=
  if b.tv_nsec ≤ a.tv_nsec then
    { secs := (a.tv_sec - b.tv_sec).toNat, nanos := a.tv_nsec - b.tv_nsec }
  else
    { secs := (a.tv_sec - b.tv_sec - 1).toNat,
      nanos := a.tv_nsec + 1000000000 - b.tv_nsec }

/-! ## Characterization of `sub_timespec` -/

/-- On normalized operands with `a >= b`, the `Ok` branch of `sub_timespec`
computes exactly the spec's directional difference (the wrapping `i64`
subtraction and `u64` cast are exact here). -/
theorem sub_timespec_ok_branch (a b : Timespec) (ha : a.normalized)
    (hb : b.normalized) (hge : Timespec.ge a b = true) :
    a.sub_timespec b = Except.ok (specDirSub a b) := by
  have hc := (Timespec.ge_iff_spec a b).mp hge
  unfold Timespec.sub_timespec
  rw [dif_pos hge]
  by_cases hn : b.tv_nsec ≤ a.tv_nsec
  · simp only [if_pos hn, Duration.new, specDirSub, toU64, wrap64, u32sub,
      NSEC_PER_SEC, Except.ok.injEq, Duration.mk.injEq]
    constructor <;> omega
  · simp only [if_neg hn, Duration.new, specDirSub, toU64, wrap64, u32sub,
      u32add, NSEC_PER_SEC, Except.ok.injEq, Duration.mk.injEq]
    constructor <;> omega

/-- Full characterization of `sub_timespec` on normalized operands: `Ok` of
the forward difference when `a >= b`, `Err` of the reverse difference
otherwise. -/
theorem sub_timespec_eq_spec (a b : Timespec) (ha : a.normalized)
    (hb : b.normalized) :
    a.sub_timespec b =
      if specGe a b then Except.ok (specDirSub a b)
      else Except.error (specDirSub b a) := by
  by_cases hge : Timespec.ge a b = true
  · rw [sub_timespec_ok_branch a b ha hb hge,
      if_pos ((Timespec.ge_iff_spec a b).mp hge)]
  · have hf : Timespec.ge a b = false := by
      revert hge; cases Timespec.ge a b <;> simp
    have hge2 := Timespec.ge_total a b hf
    unfold Timespec.sub_timespec
    rw [dif_neg hge, sub_timespec_ok_branch b a hb ha hge2,
      if_neg (fun hs => hge ((Timespec.ge_iff_spec a b).mpr hs))]

/-- C1: `sub_timespec` returns exactly the directional result of §4.2 on
normalized operands — for `a >= b`, `Ok` of the borrow-free or
one-second-borrow difference; for `a < b`, the swapped recursion reported
through the `Err` branch with the magnitude of the reverse difference. -/
theorem sub_timespec_directional (a b : Timespec) (ha : a.normalized)
    (hb : b.normalized) :
    a.sub_timespec b =
      if specGe a b then Except.ok (specDirSub a b)
      else Except.error (specDirSub b a) :=
  sub_timespec_eq_spec a b ha hb

/-- Witness for C1 at the spec's concrete scenario:
`Timespec{5, 500_000_000} - Timespec{3, 800_000_000}` takes the borrow path
and yields `Ok(Duration{1, 700_000_000})`. -/
theorem sub_timespec_directional_witness :
    Timespec.normalized (Timespec.new 5 500000000) ∧
    Timespec.normalized (Timespec.new 3 800000000) ∧
    (Timespec.new 5 500000000).sub_timespec (Timespec.new 3 800000000) =
      Except.ok { secs := 1, nanos := 700000000 } := by
  refine ⟨by decide, by decide, ?_⟩
  have h := sub_timespec_directional (Timespec.new 5 500000000)
    (Timespec.new 3 800000000) (by decide) (by decide)
  rw [h, if_pos (by decide)]
  rw [show specDirSub (Timespec.new 5 500000000) (Timespec.new 3 800000000) =
    ({ secs := 1, nanos := 700000000 } : Duration) from by decide]

/-! ## Directional-subtraction symmetry (C2) -/

/-- C2 counterexample: at the normalized input pair `a = b = Timespec.zero`,
the two directions `sub(a,b)` and `sub(b,a)` coincide and both return the
`Ok` branch, so it is false that exactly one of them yields the
non-negative branch. -/
theorem sub_timespec_both_ok_when_equal :
    Timespec.normalized Timespec.zero ∧
    Timespec.zero.sub_timespec Timespec.zero =
      Except.ok { secs := 0, nanos := 0 } ∧
    ¬ (subIsOk (Timespec.zero.sub_timespec Timespec.zero) = true ↔
        ¬ subIsOk (Timespec.zero.sub_timespec Timespec.zero) = true) := by
  have h := sub_timespec_eq_spec Timespec.zero Timespec.zero
    (by decide) (by decide)
  rw [if_pos (by decide)] at h
  rw [show specDirSub Timespec.zero Timespec.zero =
    ({ secs := 0, nanos := 0 } : Duration) from by decide] at h
  refine ⟨by decide, h, ?_⟩
  rw [h]
  simp [subIsOk]

/-- C2 (amended): on normalized operands, the two magnitudes are always
equal, and when `a ≠ b` exactly one direction yields the non-negative
branch; when `a = b` both directions yield `Ok` (of the zero duration). -/
theorem sub_timespec_antisym (a b : Timespec) (ha : a.normalized)
    (hb : b.normalized) :
    (a ≠ b → subIsOk (a.sub_timespec b) = !subIsOk (b.sub_timespec a)) ∧
    subMagnitude (a.sub_timespec b) = subMagnitude (b.sub_timespec a) := by
  rw [sub_timespec_eq_spec a b ha hb, sub_timespec_eq_spec b a hb ha]
  by_cases h1 : specGe a b <;> by_cases h2 : specGe b a
  · have hs : a.tv_sec = b.tv_sec := by omega
    have hn : a.tv_nsec = b.tv_nsec := by omega
    have hab : a = b := Timespec.eq_of_fields hs hn
    subst hab
    simp [subIsOk, subMagnitude, h1]
  · simp [h1, h2, subIsOk, subMagnitude]
  · simp [h1, h2, subIsOk, subMagnitude]
  · exfalso; omega

/-- Witness for C2 (amended) at the distinct normalized pair
`{2, 100_000_000}` and `{1, 900_000_000}`. -/
theorem sub_timespec_antisym_witness :
    subIsOk ((Timespec.new 2 100000000).sub_timespec
        (Timespec.new 1 900000000)) =
      !subIsOk ((Timespec.new 1 900000000).sub_timespec
        (Timespec.new 2 100000000)) ∧
    subMagnitude ((Timespec.new 2 100000000).sub_timespec
        (Timespec.new 1 900000000)) =
      subMagnitude ((Timespec.new 1 900000000).sub_timespec
        (Timespec.new 2 100000000)) := by
  have h := sub_timespec_antisym (Timespec.new 2 100000000)
    (Timespec.new 1 900000000) (by decide) (by decide)
  exact ⟨h.1 (by decide), h.2⟩

/-! ## `checked_add_duration` / `checked_sub_duration`
(src/raw/mod.rs lines 84–133) -/

/-- `i64::checked_add`. -/
def i64CheckedAdd (a b : Int) : Option Int :=
  if i64InRange (a + b) then some (a + b) else none

/-- `i64::checked_sub`. -/
def i64CheckedSub (a b : Int) : Option Int :=
  if i64InRange (a - b) then some (a - b) else none

/-- Inner `checked_add_unsigned` of `Timespec::checked_add_duration`:
fail when the `u64` exceeds `I64_MAX`, else `i64::checked_add`. -/
def checked_add_unsigned (a : Int) (b : Nat) : Option Int :=
  if I64_MAX < b then none else i64CheckedAdd a (b : Int)

/-- Inner `checked_sub_unsigned` of `Timespec::checked_sub_duration`:
fail when the `u64` exceeds `I64_MAX`, else `i64::checked_sub`. -/
def checked_sub_unsigned (a : Int) (b : Nat) : Option Int :=
  if I64_MAX < b then none else i64CheckedSub a (b : Int)


/-- `Timespec::checked_add_duration`: checked seconds addition (the `?`
operator is `Option.bind`), wrapping `u32` nanosecond addition, then
normalization with a checked one-second carry. -/
def Timespec.checked_add_duration (t : Timespec) (d : Duration) :
    Option Timespec :=
  (checked_add_unsigned t.tv_sec d.as_secs).bind fun secs =>
    let nsecs := u32add d.subsec_nanos t.tv_nsec
    if NSEC_PER_SEC ≤ nsecs then
      (i64CheckedAdd secs 1).map fun secs2 =>
        Timespec.new secs2 (nsecs - NSEC_PER_SEC)
    else some (Timespec.new secs nsecs)

/-- `Timespec::checked_sub_duration`: checked seconds subtraction, signed
`i32` nanosecond subtraction, then normalization with a checked one-second
borrow. -/
def Timespec.checked_sub_duration (t : Timespec) (d : Duration) :
    Option Timespec :=
  (checked_sub_unsigned t.tv_sec d.as_secs).bind fun secs =>
    let nsec : Int := wrap32i (u32AsI32 t.tv_nsec - u32AsI32 d.subsec_nanos)
    if nsec < 0 then
      (i64CheckedSub secs 1).map fun secs2 =>
        Timespec.new secs2 (toU32 (nsec + NSEC_PER_SEC))
    else some (Timespec.new secs (toU32 nsec))

/-- Characterization of `checked_add_duration` on a normalized timestamp
and a valid duration: it succeeds exactly when neither the seconds addition
nor the carry overflows `i64`, and then yields the normalized sum. -/
theorem checked_add_duration_spec (t : Timespec) (d : Duration)
    (ht : t.normalized) (hd : d.valid) :
    t.checked_add_duration d =
      if (d.secs : Int) ≤ 9223372036854775807 ∧
          i64InRange (t.tv_sec + d.secs) ∧
          (t.tv_nsec + d.nanos < 1000000000 ∨
            i64InRange (t.tv_sec + d.secs + 1)) then
        some (if t.tv_nsec + d.nanos < 1000000000 then
          Timespec.new (t.tv_sec + d.secs) (t.tv_nsec + d.nanos)
        else
          Timespec.new (t.tv_sec + d.secs + 1)
            (t.tv_nsec + d.nanos - 1000000000))
      else none := by
  have hmod : (d.nanos + t.tv_nsec) % 4294967296 = d.nanos + t.tv_nsec := by
    omega
  simp only [Timespec.checked_add_duration, checked_add_unsigned,
    i64CheckedAdd, I64_MAX, Duration.as_secs, Duration.subsec_nanos, u32add,
    NSEC_PER_SEC, hmod]
  by_cases hb : (9223372036854775807 : Nat) < d.secs
  · rw [if_pos hb]
    simp only [Option.none_bind]
    rw [if_neg (by omega)]
  · rw [if_neg hb]
    by_cases hr : i64InRange (t.tv_sec + (d.secs : Int))
    · rw [if_pos hr]
      simp only [Option.some_bind]
      by_cases hc : (1000000000 : Nat) ≤ d.nanos + t.tv_nsec
      · rw [if_pos hc]
        by_cases hr2 : i64InRange (t.tv_sec + (d.secs : Int) + 1)
        · rw [if_pos hr2]
          simp only [Option.map_some']
          rw [if_pos ⟨by omega, hr, Or.inr hr2⟩, if_neg (by omega)]
          rw [Nat.add_comm d.nanos t.tv_nsec]
        · rw [if_neg hr2]
          simp only [Option.map_none']
          rw [if_neg (by omega)]
      · rw [if_neg hc, if_pos ⟨by omega, hr, Or.inl (by omega)⟩,
          if_pos (by omega)]
        rw [Nat.add_comm d.nanos t.tv_nsec]
    · rw [if_neg hr]
      simp only [Option.none_bind]
      rw [if_neg (by omega)]

/-- Characterization of `checked_sub_duration` on a normalized timestamp
and a valid duration: it succeeds exactly when neither the seconds
subtraction nor the borrow underflows `i64`, and then yields the
normalized difference. -/
theorem checked_sub_duration_spec (t : Timespec) (d : Duration)
    (ht : t.normalized) (hd : d.valid) :
    t.checked_sub_duration d =
      if (d.secs : Int) ≤ 9223372036854775807 ∧
          i64InRange (t.tv_sec - d.secs) ∧
          (d.nanos ≤ t.tv_nsec ∨ i64InRange (t.tv_sec - d.secs - 1)) then
        some (if d.nanos ≤ t.tv_nsec then
          Timespec.new (t.tv_sec - d.secs) (t.tv_nsec - d.nanos)
        else
          Timespec.new (t.tv_sec - d.secs - 1)
            (t.tv_nsec + 1000000000 - d.nanos))
      else none := by
  have h1 : u32AsI32 t.tv_nsec = (t.tv_nsec : Int) := by
    unfold u32AsI32 wrap32i; omega
  have h2 : u32AsI32 d.nanos = (d.nanos : Int) := by
    unfold u32AsI32 wrap32i; omega
  have h3 : wrap32i ((t.tv_nsec : Int) - (d.nanos : Int)) =
      (t.tv_nsec : Int) - (d.nanos : Int) := by
    unfold wrap32i; omega
  simp only [Timespec.checked_sub_duration, checked_sub_unsigned,
    i64CheckedSub, I64_MAX, Duration.as_secs, Duration.subsec_nanos,
    NSEC_PER_SEC, Nat.cast_ofNat, h1, h2, h3]
  by_cases hb : (9223372036854775807 : Nat) < d.secs
  · rw [if_pos hb]
    simp only [Option.none_bind]
    rw [if_neg (by omega)]
  · rw [if_neg hb]
    by_cases hr : i64InRange (t.tv_sec - (d.secs : Int))
    · rw [if_pos hr]
      simp only [Option.some_bind]
      by_cases hneg : (t.tv_nsec : Int) - (d.nanos : Int) < 0
      · rw [if_pos hneg]
        by_cases hr2 : i64InRange (t.tv_sec - (d.secs : Int) - 1)
        · rw [if_pos hr2]
          simp only [Option.map_some']
          rw [if_pos ⟨by omega, hr, Or.inr hr2⟩, if_neg (by omega)]
          rw [show toU32 ((t.tv_nsec : Int) - (d.nanos : Int) + 1000000000) =
            t.tv_nsec + 1000000000 - d.nanos from by unfold toU32; omega]
        · rw [if_neg hr2]
          simp only [Option.map_none']
          rw [if_neg (by omega)]
      · rw [if_neg hneg, if_pos ⟨by omega, hr, Or.inl (by omega)⟩,
          if_pos (by omega)]
        rw [show toU32 ((t.tv_nsec : Int) - (d.nanos : Int)) =
          t.tv_nsec - d.nanos from by unfold toU32; omega]
    · rw [if_neg hr]
      simp only [Option.none_bind]
      rw [if_neg (by omega)]

/-! ## Round-trip, normalization and overflow claims -/

/-- C3: for every normalized timestamp `t` and valid duration `d`, whenever
`checked_add_duration t d = some u`, `checked_sub_duration u d = some t`
(add-then-subtract round-trip). -/
theorem checked_add_sub_round_trip (t : Timespec) (d : Duration)
    (u : Timespec) (ht : t.normalized) (hd : d.valid)
    (h : t.checked_add_duration d = some u) :
    u.checked_sub_duration d = some t := by
  rw [checked_add_duration_spec t d ht hd] at h
  by_cases hc : (d.secs : Int) ≤ 9223372036854775807 ∧
      i64InRange (t.tv_sec + d.secs) ∧
      (t.tv_nsec + d.nanos < 1000000000 ∨
        i64InRange (t.tv_sec + d.secs + 1))
  swap
  · rw [if_neg hc] at h
    exact absurd h (by simp)
  rw [if_pos hc] at h
  obtain ⟨hc1, hc2, hc3⟩ := hc
  by_cases hcar : t.tv_nsec + d.nanos < 1000000000
  · rw [if_pos hcar] at h
    have hu := (Option.some.inj h).symm
    subst hu
    have hun : (Timespec.new (t.tv_sec + d.secs)
        (t.tv_nsec + d.nanos)).normalized := ⟨hc2, hcar⟩
    rw [checked_sub_duration_spec _ d hun hd]
    simp only [Timespec.new]
    rw [if_pos ⟨hc1, by omega, Or.inl (by omega)⟩, if_pos (by omega)]
    exact congrArg some (Timespec.eq_of_fields
      (by simp only [Timespec.new]; omega) (by simp only [Timespec.new]; omega))
  · rw [if_neg hcar] at h
    have hu := (Option.some.inj h).symm
    subst hu
    have hr2 : i64InRange (t.tv_sec + d.secs + 1) :=
      hc3.resolve_left hcar
    have hun : (Timespec.new (t.tv_sec + d.secs + 1)
        (t.tv_nsec + d.nanos - 1000000000)).normalized :=
      ⟨hr2, by simp only [Timespec.new]; omega⟩
    rw [checked_sub_duration_spec _ d hun hd]
    simp only [Timespec.new]
    rw [if_pos ⟨hc1, by omega, Or.inr (by omega)⟩, if_neg (by omega)]
    exact congrArg some (Timespec.eq_of_fields
      (by simp only [Timespec.new]; omega) (by simp only [Timespec.new]; omega))

/-- Witness for C3 at `t = {1, 999_999_999}`, `d = {2, 1}` (a carrying
addition): the sum is `{4, 0}` and subtracting `d` returns `t`. -/
theorem checked_add_sub_round_trip_witness :
    (Timespec.new 1 999999999).checked_add_duration
        { secs := 2, nanos := 1 } = some (Timespec.new 4 0) ∧
    (Timespec.new 4 0).checked_sub_duration { secs := 2, nanos := 1 } =
      some (Timespec.new 1 999999999) := by
  refine ⟨by decide, ?_⟩
  exact checked_add_sub_round_trip (Timespec.new 1 999999999)
    { secs := 2, nanos := 1 } (Timespec.new 4 0)
    (by decide) (by decide) (by decide)

/-- C4: every arithmetic operation on normalized inputs yields a result
whose sub-second nanoseconds field lies in `[0, 1e9)` (the lower bound is
by the `Nat` type): the magnitude of `sub_timespec`, and any `some` result
of `checked_add_duration` or `checked_sub_duration`. -/
theorem arithmetic_preserves_normalization (a b t : Timespec) (d : Duration)
    (ha : a.normalized) (hb : b.normalized) (ht : t.normalized)
    (hd : d.valid) :
    (subMagnitude (a.sub_timespec b)).nanos < 1000000000 ∧
    (∀ u, t.checked_add_duration d = some u → u.tv_nsec < 1000000000) ∧
    (∀ u, t.checked_sub_duration d = some u → u.tv_nsec < 1000000000) := by
  refine ⟨?_, ?_, ?_⟩
  · rw [sub_timespec_eq_spec a b ha hb]
    by_cases hg : specGe a b
    · rw [if_pos hg]
      simp only [subMagnitude, specDirSub]
      split <;> dsimp only <;> omega
    · rw [if_neg hg]
      simp only [subMagnitude, specDirSub]
      split <;> dsimp only <;> omega
  · intro u hu
    rw [checked_add_duration_spec t d ht hd] at hu
    split at hu
    · have hx := Option.some.inj hu
      rw [← hx]
      split <;> simp only [Timespec.new] <;> omega
    · exact absurd hu (by simp)
  · intro u hu
    rw [checked_sub_duration_spec t d ht hd] at hu
    split at hu
    · have hx := Option.some.inj hu
      rw [← hx]
      split <;> simp only [Timespec.new] <;> omega
    · exact absurd hu (by simp)

/-- Witness for C4 at `a = {5, 500_000_000}`, `b = {3, 800_000_000}`,
`t = {0, 900_000_000}`, `d = {0, 200_000_000}`. -/
theorem arithmetic_preserves_normalization_witness :
    (subMagnitude ((Timespec.new 5 500000000).sub_timespec
        (Timespec.new 3 800000000))).nanos < 1000000000 ∧
    (∀ u, (Timespec.new 0 900000000).checked_add_duration
        { secs := 0, nanos := 200000000 } = some u →
      u.tv_nsec < 1000000000) := by
  have h1 := arithmetic_preserves_normalization (Timespec.new 5 500000000)
    (Timespec.new 3 800000000) (Timespec.new 0 900000000)
    { secs := 0, nanos := 200000000 }
    (by decide) (by decide) (by decide) (by decide)
  exact ⟨h1.1, h1.2.1⟩

/-- C5: on a normalized timestamp and valid duration,
`checked_add_duration` returns `none` exactly when the duration's seconds
exceed `i64::MAX`, when the seconds addition overflows `i64`, or when the
one-second carry after nanosecond normalization overflows `i64`; otherwise
it returns `some` of the normalized, numerically exact sum. -/
theorem checked_add_overflow_behavior (t : Timespec) (d : Duration)
    (ht : t.normalized) (hd : d.valid) :
    (t.checked_add_duration d = none ↔
      (9223372036854775807 : Int) < (d.secs : Int) ∨
      (9223372036854775807 : Int) < t.tv_sec + d.secs ∨
      (1000000000 ≤ t.tv_nsec + d.nanos ∧
        (9223372036854775807 : Int) < t.tv_sec + d.secs + 1)) ∧
    (∀ u, t.checked_add_duration d = some u →
      u.normalized ∧ u.toNanos = t.toNanos + d.toNanos) := by
  rw [checked_add_duration_spec t d ht hd]
  constructor
  · by_cases hcnd : (d.secs : Int) ≤ 9223372036854775807 ∧
        i64InRange (t.tv_sec + d.secs) ∧
        (t.tv_nsec + d.nanos < 1000000000 ∨
          i64InRange (t.tv_sec + d.secs + 1))
    · rw [if_pos hcnd]
      obtain ⟨c1, c2, c3⟩ := hcnd
      exact iff_of_false (by simp) (by omega)
    · rw [if_neg hcnd]
      exact iff_of_true rfl (by omega)
  · intro u hu
    split at hu
    · have hx := Option.some.inj hu
      rw [← hx]
      constructor
      · split <;>
          exact ⟨by simp only [Timespec.new]; omega,
            by simp only [Timespec.new]; omega⟩
      · simp only [Timespec.toNanos, Duration.toNanos]
        split <;> simp only [Timespec.new] <;> omega
    · exact absurd hu (by simp)

/-- Witness for C5 at the spec's concrete scenario: adding a duration of
`u64::MAX` seconds to timestamp `{0, 0}` fails (returns `none`). -/
theorem checked_add_overflow_behavior_witness :
    Timespec.zero.checked_add_duration
      { secs := 18446744073709551615, nanos := 0 } = none := by
  have h := checked_add_overflow_behavior Timespec.zero
    { secs := 18446744073709551615, nanos := 0 } (by decide) (by decide)
  exact h.1.mpr (Or.inl (by decide))

/-! ## `Instant` and `SystemTime` (src/lib.rs) -/

/-- `Instant` from `src/lib.rs`: an opaque wrapper around a monotonic-clock
`Timespec`. -/
structure Instant where
  t : Timespec
deriving DecidableEq

/-- `Instant::checked_duration_since`: `sub_timespec(..).ok()`. -/
def Instant.checked_duration_since (a earlier : Instant) : Option Duration :=
  match a.t.sub_timespec earlier.t with
  | .ok d => some d
  | .error _ => none

/-- `Instant::duration_since`: `checked_duration_since(..).unwrap_or_default()`. -/
def Instant.duration_since (a earlier : Instant) : Duration :=
  match a.checked_duration_since earlier with
  | some d => d
  | none => Duration.default

/-- `Instant::saturating_duration_since`:
`checked_duration_since(..).unwrap_or_default()`. -/
def Instant.saturating_duration_since (a earlier : Instant) : Duration :=
  match a.checked_duration_since earlier with
  | some d => d
  | none => Duration.default

/-- `SystemTime` from `src/lib.rs`: an opaque wrapper around a
realtime-clock `Timespec`. -/
structure SystemTime where
  t : Timespec
deriving DecidableEq

/-- `SystemTimeError` from `src/lib.rs`: carries the reverse-offset
magnitude as diagnostic payload. -/
structure SystemTimeError where
  duration : Duration
deriving DecidableEq

/-- `SystemTime::UNIX_EPOCH`: `Timespec::zero()`. -/
def SystemTime.UNIX_EPOCH : SystemTime := { t := Timespec.zero }

/-- `SystemTime::new`: stores the fields verbatim via `Timespec::new`. -/
def SystemTime.new (sec : Int) (nsec : Nat) : SystemTime :=
  { t := Timespec.new sec nsec }

/-- `SystemTime::duration_since`:
`sub_timespec(..).map_err(SystemTimeError)`. -/
def SystemTime.duration_since (a earlier : SystemTime) :
    Except SystemTimeError Duration :=
  match a.t.sub_timespec earlier.t with
  | .ok d => .ok d
  | .error d => .error { duration := d }

/-- C6: for `Instant`s over normalized timestamps,
`saturating_duration_since` returns the zero duration whenever `a < b`
(where `checked_duration_since` is `none`), and equals the value of
`checked_duration_since` whenever `a >= b`; it is total (never fails). -/
theorem saturating_duration_since_spec (a b : Instant)
    (ha : a.t.normalized) (hb : b.t.normalized) :
    (¬ specGe a.t b.t →
      a.checked_duration_since b = none ∧
      a.saturating_duration_since b = { secs := 0, nanos := 0 }) ∧
    (specGe a.t b.t → ∃ d, a.checked_duration_since b = some d ∧
      a.saturating_duration_since b = d) := by
  have hs := sub_timespec_eq_spec a.t b.t ha hb
  constructor
  · intro hlt
    rw [if_neg hlt] at hs
    simp [Instant.checked_duration_since, Instant.saturating_duration_since,
      Duration.default, hs]
  · intro hge
    rw [if_pos hge] at hs
    exact ⟨specDirSub a.t b.t,
      by simp [Instant.checked_duration_since, hs],
      by simp [Instant.saturating_duration_since,
        Instant.checked_duration_since, hs]⟩

/-- Witness for C6 at `a = Instant{1, 0}`, `b = Instant{2, 0}`: forwards it
saturates to zero, backwards it equals the checked value. -/
theorem saturating_duration_since_spec_witness :
    (Instant.mk (Timespec.new 1 0)).saturating_duration_since
        (Instant.mk (Timespec.new 2 0)) = { secs := 0, nanos := 0 } ∧
    (∃ d, (Instant.mk (Timespec.new 2 0)).checked_duration_since
        (Instant.mk (Timespec.new 1 0)) = some d ∧
      (Instant.mk (Timespec.new 2 0)).saturating_duration_since
        (Instant.mk (Timespec.new 1 0)) = d) := by
  have h1 := saturating_duration_since_spec (Instant.mk (Timespec.new 1 0))
    (Instant.mk (Timespec.new 2 0)) (by decide) (by decide)
  have h2 := saturating_duration_since_spec (Instant.mk (Timespec.new 2 0))
    (Instant.mk (Timespec.new 1 0)) (by decide) (by decide)
  exact ⟨(h1.1 (by decide)).2, h2.2 (by decide)⟩

/-- C7: `SystemTime::duration_since` is the fallible directional form: `Ok`
of the forward difference when `a >= b`, `Err` carrying the reverse-offset
magnitude when `a < b`. -/
theorem system_time_duration_since_spec (a b : SystemTime)
    (ha : a.t.normalized) (hb : b.t.normalized) :
    a.duration_since b =
      if specGe a.t b.t then Except.ok (specDirSub a.t b.t)
      else Except.error { duration := specDirSub b.t a.t } := by
  have hs := sub_timespec_eq_spec a.t b.t ha hb
  unfold SystemTime.duration_since
  by_cases hge : specGe a.t b.t
  · rw [if_pos hge] at hs
    rw [hs, if_pos hge]
  · rw [if_neg hge] at hs
    rw [hs, if_neg hge]

/-- Witness for C7 at the spec's concrete scenario:
`UNIX_EPOCH.duration_since(UNIX_EPOCH)` returns `Ok` of the zero duration. -/
theorem system_time_duration_since_spec_witness :
    SystemTime.UNIX_EPOCH.duration_since SystemTime.UNIX_EPOCH =
      Except.ok { secs := 0, nanos := 0 } := by
  have h := system_time_duration_since_spec SystemTime.UNIX_EPOCH
    SystemTime.UNIX_EPOCH (by decide) (by decide)
  rw [h, if_pos (by decide)]
  rw [show specDirSub SystemTime.UNIX_EPOCH.t SystemTime.UNIX_EPOCH.t =
    ({ secs := 0, nanos := 0 } : Duration) from by decide]

/-! ## Exactness of the difference and the intermediate `i64` wrap (C8) -/

/-- C8 counterexample: at the normalized pair `a = {i64::MAX, 0}`,
`b = {-1, 0}` (with `a >= b`), the intermediate `i64` seconds subtraction
`a.tv_sec - b.tv_sec` inside `sub_timespec` is not representable in `i64`:
it overflows (wraps) rather than being computed without overflow, refuting
the claim for the entire signed-64-bit seconds range. -/
theorem sub_timespec_intermediate_overflow_cex :
    Timespec.normalized (Timespec.new 9223372036854775807 0) ∧
    Timespec.normalized (Timespec.new (-1) 0) ∧
    specGe (Timespec.new 9223372036854775807 0) (Timespec.new (-1) 0) ∧
    ¬ i64InRange ((Timespec.new 9223372036854775807 0).tv_sec -
        (Timespec.new (-1) 0).tv_sec) ∧
    wrap64 ((Timespec.new 9223372036854775807 0).tv_sec -
        (Timespec.new (-1) 0).tv_sec) ≠
      (Timespec.new 9223372036854775807 0).tv_sec -
        (Timespec.new (-1) 0).tv_sec := by
  refine ⟨by decide, by decide, by decide, by decide, ?_⟩
  unfold wrap64 Timespec.new
  decide

/-- C8 (amended): for all normalized `a >= b` across the entire
signed-64-bit seconds range, `sub_timespec` returns `Ok` of the exact
mathematical difference `a - b`; the intermediate `i64` seconds
subtraction may wrap for extreme operands, but the subsequent `as u64`
cast makes the final result exact. -/
theorem sub_timespec_exact_difference (a b : Timespec) (ha : a.normalized)
    (hb : b.normalized) (hge : specGe a b) :
    ∃ d, a.sub_timespec b = Except.ok d ∧
      d.toNanos = a.toNanos - b.toNanos := by
  rw [sub_timespec_eq_spec a b ha hb, if_pos hge]
  refine ⟨specDirSub a b, rfl, ?_⟩
  unfold specDirSub Duration.toNanos Timespec.toNanos
  split <;> dsimp only <;> omega

/-- Witness for C8 (amended) at the extreme operands `{i64::MAX, 0}` and
`{i64::MIN, 0}`, whose exact difference is `u64::MAX` seconds. -/
theorem sub_timespec_exact_difference_witness :
    ∃ d, (Timespec.new 9223372036854775807 0).sub_timespec
        (Timespec.new (-9223372036854775808) 0) = Except.ok d ∧
      d.toNanos = 18446744073709551615 * 1000000000 := by
  obtain ⟨d, h1, h2⟩ := sub_timespec_exact_difference
    (Timespec.new 9223372036854775807 0)
    (Timespec.new (-9223372036854775808) 0)
    (by decide) (by decide) (by decide)
  refine ⟨d, h1, ?_⟩
  rw [h2]
  decide

/-! ## The vDSO fast path of `clock_gettime` (src/raw/linux.rs) -/

/-- `ClockId` from `src/raw/linux.rs` (Linux clock kinds). -/
inductive ClockId where
  | Realtime
  | Monotonic
  | ProcessCputimeId
  | ThreadCputimeId
  | MonotonicRaw
  | RealtimeCoarse
  | MonotonicCoarse
  | Boottime
  | RealtimeAlarm
  | BoottimeAlarm
  | InternationalAtomicTime
deriving DecidableEq

/-- The `repr(i32)` value of each `ClockId` variant. -/
def ClockId.toRaw : ClockId → Int
  | .Realtime => 0
  | .Monotonic => 1
  | .ProcessCputimeId => 2
  | .ThreadCputimeId => 3
  | .MonotonicRaw => 4
  | .RealtimeCoarse => 5
  | .MonotonicCoarse => 6
  | .Boottime => 7
  | .RealtimeAlarm => 8
  | .BoottimeAlarm => 9
  | .InternationalAtomicTime => 11

/-- Linux `ENOSYS` errno ("function not implemented"). -/
def ENOSYS : Nat := 38

/-- The memoized vDSO function-pointer cell `CLOCK_GETTIME_VSYSCALL`:
null means "not yet resolved", the sentinel `1` ("INIT_NULL") means
"resolved, no shortcut available", anything else is the resolved address. -/
inductive VdsoCache where
  | uninit
  | initNull
  | resolved (addr : Nat)
deriving DecidableEq

/-- `clock_gettime_vsyscall` from `src/raw/linux.rs`: resolve and memoize
the vDSO shortcut address.  `vdsoAddr` is the address the environment's
vDSO provides (`none` for a null pointer); the returned pair is the new
cache state and the optional function pointer to call. -/
def clock_gettime_vsyscall (cache : VdsoCache) (vdsoAddr : Option Nat) :
    VdsoCache × Option Nat :=
  match cache with
  | .uninit =>
    match vdsoAddr with
    | none => (.initNull, none)
    | some p => (.resolved p, some p)
  | .initNull => (.initNull, none)
  | .resolved p => (.resolved p, some p)

/-- `get_impl::clock_gettime` from `src/raw/linux.rs`: when a shortcut is
resolved, call it; fall back to the full kernel syscall only when the
shortcut returns `ENOSYS`; otherwise return the shortcut's result
verbatim.  `shortcut` and `sysc` are oracles for the vDSO routine at a
given address and for the kernel syscall. -/
def clock_gettime (cache : VdsoCache) (vdsoAddr : Option Nat)
    (shortcut : Nat → ClockId → Except Nat Timespec)
    (sysc : ClockId → Except Nat Timespec) (clockid : ClockId) :
    VdsoCache × Except Nat Timespec :=
  let r := clock_gettime_vsyscall cache vdsoAddr
  let res :=
    match r.2 with
    | some addr =>
      match shortcut addr clockid with
      | .error e => if e = ENOSYS then sysc clockid else .error e
      | .ok ts => .ok ts
    | none => sysc clockid
  (r.1, res)

/-- C9: when the vDSO shortcut is resolved, the full kernel syscall is used
as fallback if and only if the shortcut returns `ENOSYS`; any other
shortcut error is returned verbatim, a success is returned as is, and the
memoized pointer is never invalidated by the fallback. -/
theorem clock_gettime_enosys_fallback (cache : VdsoCache)
    (vdsoAddr : Option Nat) (shortcut : Nat → ClockId → Except Nat Timespec)
    (sysc : ClockId → Except Nat Timespec) (clockid : ClockId) (addr : Nat)
    (hres : (clock_gettime_vsyscall cache vdsoAddr).2 = some addr) :
    (shortcut addr clockid = Except.error ENOSYS →
      (clock_gettime cache vdsoAddr shortcut sysc clockid).2 =
        sysc clockid) ∧
    (∀ e, e ≠ ENOSYS → shortcut addr clockid = Except.error e →
      (clock_gettime cache vdsoAddr shortcut sysc clockid).2 =
        Except.error e) ∧
    (∀ ts, shortcut addr clockid = Except.ok ts →
      (clock_gettime cache vdsoAddr shortcut sysc clockid).2 =
        Except.ok ts) ∧
    (clock_gettime cache vdsoAddr shortcut sysc clockid).1 =
      (clock_gettime_vsyscall cache vdsoAddr).1 ∧
    (∀ p, cache = VdsoCache.resolved p →
      (clock_gettime cache vdsoAddr shortcut sysc clockid).1 =
        VdsoCache.resolved p) := by
  refine ⟨?_, ?_, ?_, rfl, ?_⟩
  · intro hsc
    simp [clock_gettime, hres, hsc]
  · intro e he hsc
    simp [clock_gettime, hres, hsc, he]
  · intro ts hsc
    simp [clock_gettime, hres, hsc]
  · intro p hp
    subst hp
    rfl

/-- Witness for C9: a resolved shortcut that reports `ENOSYS` falls back to
the kernel result for that call, and the memoized pointer survives. -/
theorem clock_gettime_enosys_fallback_witness :
    (clock_gettime (VdsoCache.resolved 5) (some 5)
        (fun _ _ => Except.error ENOSYS)
        (fun _ => Except.ok (Timespec.new 1 2)) ClockId.Monotonic).2 =
      Except.ok (Timespec.new 1 2) ∧
    (clock_gettime (VdsoCache.resolved 5) (some 5)
        (fun _ _ => Except.error ENOSYS)
        (fun _ => Except.ok (Timespec.new 1 2)) ClockId.Monotonic).1 =
      VdsoCache.resolved 5 := by
  have h := clock_gettime_enosys_fallback (VdsoCache.resolved 5) (some 5)
    (fun _ _ => Except.error ENOSYS)
    (fun _ => Except.ok (Timespec.new 1 2)) ClockId.Monotonic 5 rfl
  exact ⟨h.1 rfl, h.2.2.2.2 5 rfl⟩

/-! ## Unnormalized constructor inputs (C10) -/

/-- C10: `Timespec::new` and `SystemTime::new` accept any `u32`
nanoseconds value verbatim (no normalization or rejection); some inputs
(any `nsec >= 1e9`) therefore violate the normalization invariant; on such
values the `u32` nanosecond addition of `checked_add_duration` can
overflow (wrap), producing a mathematically wrong result; the invariant
holds exactly under the precondition `nsec < 1e9`. -/
theorem constructors_accept_unnormalized_nanos :
    (∀ sec nsec, (Timespec.new sec nsec).tv_nsec = nsec ∧
      (SystemTime.new sec nsec).t.tv_nsec = nsec) ∧
    (∃ nsec, 1000000000 ≤ nsec ∧ nsec < 4294967296 ∧
      ¬ (Timespec.new 0 nsec).normalized) ∧
    (∃ (t : Timespec) (d : Duration), t.valid ∧ Duration.valid d ∧
      4294967296 ≤ d.nanos + t.tv_nsec) ∧
    (Timespec.new 0 4294967295).checked_add_duration
        { secs := 0, nanos := 1 } = some (Timespec.new 0 0) ∧
    (∀ sec nsec, i64InRange sec → nsec < 1000000000 →
      (Timespec.new sec nsec).normalized) := by
  refine ⟨fun sec nsec => ⟨rfl, rfl⟩,
    ⟨1000000000, by decide, by decide, by decide⟩,
    ⟨Timespec.new 0 4294967295, { secs := 0, nanos := 999999999 },
      by decide, by decide, by decide⟩,
    by decide,
    fun sec nsec h1 h2 => ⟨h1, h2⟩⟩

/-- Witness for C10: the constructor stores `2_000_000_000` nanoseconds
verbatim, and a normalized input stays normalized. -/
theorem constructors_accept_unnormalized_nanos_witness :
    (Timespec.new 0 2000000000).tv_nsec = 2000000000 ∧
    (Timespec.new 5 7).normalized := by
  have h := constructors_accept_unnormalized_nanos
  exact ⟨(h.1 0 2000000000).1, h.2.2.2.2 5 7 (by decide) (by decide)⟩
